import Mathlib

set_option maxRecDepth 20000
set_option maxHeartbeats 1000000

/-!
Shallow embedding of the curriculum-aware statistics engine of this repository
(`generate_curriculum_aware_statistics.py` and `generate_statistical_summary.py`).

Modelling conventions:
* Python floats are modelled as exact rationals (`ℚ`).  Arithmetic is expressed
  through the executable wrappers `qadd`/`qsub`/`qmul`/`qdiv` below, which are
  proved equal to the ordinary field operations (`qadd_eq` …); they are used so
  that concrete runs of the embedded code reduce inside the kernel.
* `np.std` returns a square root, which is irrational in general; results store
  its square (`std_sq`).  A standard deviation is zero, or is determined by a
  sample list, exactly when its square is, so claims about which samples feed a
  `std` field are faithfully expressed through `std_sq`.
* Python dicts are modelled as association lists with insert-or-overwrite
  (`dictInsert`), preserving key sets and lookups.
* The filesystem of run directories is an explicit environment `Env` mapping a
  run-directory name to its CSV files; `os.path.exists` is `file_exists` and a
  CSV read is `load_csv_data` (a failed read yields `([], [])`, exactly the
  recovery of the Python `load_csv_data`).
* `np.random.choice` draws from the process-global numpy source; the source is
  modelled as an explicit argument `rng : RNG`, where `rng t p` is the index
  drawn for position `p` of resample `t`.
-/

/-- Executable rational addition (`a + b`), written through `mkRat` so that the
kernel can evaluate it on literals. -/
def qadd (a b : ℚ) : ℚ := mkRat (a.num * b.den + b.num * a.den) (a.den * b.den)

/-- Executable rational subtraction (`a - b`). -/
def qsub (a b : ℚ) : ℚ := mkRat (a.num * b.den - b.num * a.den) (a.den * b.den)

/-- Executable rational multiplication (`a * b`). -/
def qmul (a b : ℚ) : ℚ := mkRat (a.num * b.num) (a.den * b.den)

/-- Executable rational negation (`-a`). -/
def qneg (a : ℚ) : ℚ := mkRat (-a.num) a.den

/-- Executable rational inverse (`a⁻¹`, with `0⁻¹ = 0` as in Lean). -/
def qinv (a : ℚ) : ℚ := mkRat (Int.sign a.num * a.den) a.num.natAbs

/-- Executable rational division (`a / b`). -/
def qdiv (a b : ℚ) : ℚ := qmul a (qinv b)

/-- Executable absolute value (`|a|`). -/
def qabs (a : ℚ) : ℚ := mkRat a.num.natAbs a.den

/-- Executable `≤` on rationals as a boolean. -/
def qleB (a b : ℚ) : Bool := !(Rat.blt b a)

/-- Sum of a list of rationals through `qadd`. -/
def qsum (l : List ℚ) : ℚ := l.foldr qadd (mkRat 0 1)

/-- Python `int()` applied to a float: truncation toward zero. -/
def pyInt (q : ℚ) : ℤ := if q < 0 then ⌈q⌉ else ⌊q⌋

/-- Rounding to the nearest integer (ties upward).  This is not used by the
embedded code; it states the spec's "round-to-nearest" reading of stage ids. -/
def roundNearest (q : ℚ) : ℤ := ⌊qadd q (mkRat 1 2)⌋

/-- The Python slice `l[-w:]` for an arbitrary integer `w`.  Note the Python
pitfall `l[-0:] = l[0:] = l`, and that a negative `w` drops leading elements. -/
def pyTail {α : Type} (l : List α) (w : ℤ) : List α :=
  let s : ℤ := -w
  if s < 0 then l.drop (max ((l.length : ℤ) + s) 0).toNat else l.drop s.toNat

/-- `np.mean` over exact rationals. -/
def np_mean (l : List ℚ) : ℚ := qdiv (qsum l) (mkRat (l.length : ℤ) 1)

/-- The square of `np.std` (population standard deviation) over exact
rationals: the mean of the squared deviations from the mean. -/
def np_std_sq (l : List ℚ) : ℚ :=
  np_mean (l.map (fun x => qmul (qsub x (np_mean l)) (qsub x (np_mean l))))

/-- `np.min` of a nonempty list (0 on the empty list, which the code never
evaluates). -/
def np_min (l : List ℚ) : ℚ :=
  match l with
  | [] => mkRat 0 1
  | x :: t => t.foldl (fun a b => if qleB a b then a else b) x

/-- `np.max` of a nonempty list (0 on the empty list, which the code never
evaluates). -/
def np_max (l : List ℚ) : ℚ :=
  match l with
  | [] => mkRat 0 1
  | x :: t => t.foldl (fun a b => if qleB a b then b else a) x

/-- Insertion step of the ascending sort used to model `np.percentile`'s
internal sort. -/
def insertSortedBy {α : Type} (le : α → α → Bool) (x : α) : List α → List α
  | [] => [x]
  | y :: t => if le x y then x :: y :: t else y :: insertSortedBy le x t

/-- Ascending insertion sort with a boolean comparator. -/
def isortBy {α : Type} (le : α → α → Bool) (l : List α) : List α :=
  l.foldr (insertSortedBy le) []

/-- `np.percentile(l, q)` with numpy's default linear interpolation:
sort ascending, take position `q/100 * (n-1)`, and interpolate linearly
between the two neighbouring order statistics. -/
def np_percentile (l : List ℚ) (q : ℚ) : ℚ :=
  let s := isortBy qleB l
  if s.length = 0 then mkRat 0 1
  else
    let pos := qdiv (qmul q (mkRat ((s.length : ℤ) - 1) 1)) (mkRat 100 1)
    let i : ℤ := ⌊pos⌋
    if i < 0 then s.getD 0 (mkRat 0 1)
    else if i.toNat + 1 < s.length then
      qadd (s.getD i.toNat (mkRat 0 1))
        (qmul (qsub pos (mkRat i 1))
          (qsub (s.getD (i.toNat + 1) (mkRat 0 1)) (s.getD i.toNat (mkRat 0 1))))
    else s.getD (s.length - 1) (mkRat 0 1)

/-- The resampling source: `rng t p` is the index `np.random.choice` draws for
position `p` of resample `t`.  The Python code draws from the process-global
numpy generator; the source is surfaced as an explicit argument. -/
abbrev RNG := ℕ → ℕ → ℕ

/-- `bootstrap_ci(data, n_bootstrap, confidence)` from both scripts (the two
files contain identical copies): below 2 data points return the sentinel
`(0.0, 0.0)`; otherwise draw `n_bootstrap` resamples with replacement of size
`len(data)`, take each resample's mean, and return the `[α/2, 1-α/2]`
percentiles of the resample means. -/
def bootstrap_ci (rng : RNG) (data : List ℚ) (n_bootstrap : ℕ) (confidence : ℚ) : ℚ × ℚ :=
  if data.length < 2 then (mkRat 0 1, mkRat 0 1)
  else
    let bootstrap_means := (List.range n_bootstrap).map (fun t =>
      np_mean ((List.range data.length).map (fun p =>
        data.getD (rng t p % data.length) (mkRat 0 1))))
    let alpha := qsub (mkRat 1 1) confidence
    (np_percentile bootstrap_means (qmul (mkRat 100 1) (qdiv alpha (mkRat 2 1))),
     np_percentile bootstrap_means (qmul (mkRat 100 1) (qsub (mkRat 1 1) (qdiv alpha (mkRat 2 1)))))

/-- Lookup in an association-list model of a Python dict. -/
def dlookup {κ α : Type} [DecidableEq κ] (k : κ) : List (κ × α) → Option α
  | [] => none
  | p :: t => if p.1 = k then some p.2 else dlookup k t

/-- Python dict assignment `d[k] = v`: overwrite in place if the key exists,
else append. -/
def dictInsert {κ α : Type} [DecidableEq κ] (d : List (κ × α)) (k : κ) (v : α) : List (κ × α) :=
  if k ∈ d.map Prod.fst then d.map (fun p => if p.1 = k then (k, v) else p)
  else d ++ [(k, v)]

/-- `d.setdefault(k, []).append(v)` as used to accumulate per-stage means. -/
def dict_append (d : List (ℤ × List ℚ)) (k : ℤ) (v : ℚ) : List (ℤ × List ℚ) :=
  if k ∈ d.map Prod.fst then d.map (fun p => if p.1 = k then (p.1, p.2 ++ [v]) else p)
  else d ++ [(k, [v])]

/-- Run-length key compression: the sequence of stage ids with consecutive
repeats collapsed (used to state segmentation properties). -/
def chunkAux (a : ℤ) : List ℤ → List ℤ
  | [] => []
  | b :: t => if b = a then chunkAux a t else b :: chunkAux b t

/-- The distinct consecutive ids of a stage-id sequence. -/
def chunkIds : List ℤ → List ℤ
  | [] => []
  | a :: t => a :: chunkAux a t

/-- The scan loop of `find_stage_transitions` (lines 42-52): state is the
accumulated dict of closed ranges, the current stage id, the current stage's
start step, and the previously seen step (`none` before the first iteration,
mirroring the `stage_steps[i-1] if i > 0 else step` access). -/
def fstLoop : List (ℤ × ℚ) → List (ℤ × ℤ × ℤ) → ℤ → ℤ → Option ℤ → List (ℤ × ℤ × ℤ) × ℤ × ℤ
  | [], ranges, cur, st, _ => (ranges, cur, st)
  | (step, v) :: rest, ranges, cur, st, prev =>
    if pyInt v ≠ cur then
      fstLoop rest (dictInsert ranges cur (st, prev.getD step)) (pyInt v) step (some step)
    else
      fstLoop rest ranges cur st (some step)

/-- `find_stage_transitions(stage_steps, stage_values)`: scan the zipped
signal, closing `[stage_start, previous step]` at each change of `int(value)`,
then close the final stage at `stage_steps[-1]`. -/
def find_stage_transitions (stage_steps : List ℤ) (stage_values : List ℚ) : List (ℤ × ℤ × ℤ) :=
  match stage_steps, stage_values with
  | [], _ => []
  | _ :: _, [] => []
  | s0 :: sr, v0 :: vr =>
    let res := fstLoop ((s0 :: sr).zip (v0 :: vr)) [] (pyInt v0) s0 none
    dictInsert res.1 res.2.1 (res.2.2, sr.getLastD s0)

/-- Variant of `fstLoop` whose `i = 0` fallback arm closes at a junk step
(`step + 1` instead of `step`); used to show that arm is dead code. -/
def fstLoopAlt : List (ℤ × ℚ) → List (ℤ × ℤ × ℤ) → ℤ → ℤ → Option ℤ → List (ℤ × ℤ × ℤ) × ℤ × ℤ
  | [], ranges, cur, st, _ => (ranges, cur, st)
  | (step, v) :: rest, ranges, cur, st, prev =>
    if pyInt v ≠ cur then
      fstLoopAlt rest (dictInsert ranges cur (st, prev.getD (step + 1))) (pyInt v) step (some step)
    else
      fstLoopAlt rest ranges cur st (some step)

/-- `find_stage_transitions` with the dead fallback arm altered. -/
def find_stage_transitionsAlt (stage_steps : List ℤ) (stage_values : List ℚ) : List (ℤ × ℤ × ℤ) :=
  match stage_steps, stage_values with
  | [], _ => []
  | _ :: _, [] => []
  | s0 :: sr, v0 :: vr =>
    let res := fstLoopAlt ((s0 :: sr).zip (v0 :: vr)) [] (pyInt v0) s0 none
    dictInsert res.1 res.2.1 (res.2.2, sr.getLastD s0)

/-- One per-stage performance record of `get_stage_performance`.  `std_sq` is
the square of the stored `np.std`. -/
structure PyStats where
  mean : ℚ
  std_sq : ℚ
  min : ℚ
  max : ℚ
  n_steps : ℕ
  range_lo : ℤ
  range_hi : ℤ
deriving DecidableEq

/-- The metric samples whose steps fall inside `[lo, hi]` (boundaries
inclusive), in order. -/
def in_stage_values (steps : List ℤ) (values : List ℚ) (lo hi : ℤ) : List ℚ :=
  ((steps.zip values).filter (fun p => decide (lo ≤ p.1 ∧ p.1 ≤ hi))).map Prod.snd

/-- The record built at lines 82-89: statistics of the trailing-window values,
the in-stage sample count and the stage's step range. -/
def mkStats (final_values : List ℚ) (n : ℕ) (lo hi : ℤ) : PyStats :=
  ⟨np_mean final_values, np_std_sq final_values, np_min final_values,
   np_max final_values, n, lo, hi⟩

/-- The body of `get_stage_performance`'s loop for one stage interval `e`:
collect the in-stage samples, keep the trailing `stage_window` of them when
there are more than `stage_window`, and record `mean/std/min/max` of that
trailing window (stages with no samples are skipped). -/
def gsp_step (steps : List ℤ) (values : List ℚ) (stage_window : ℤ)
    (acc : List (ℤ × PyStats)) (e : ℤ × ℤ × ℤ) : List (ℤ × PyStats) :=
  let sv := in_stage_values steps values e.2.1 e.2.2
  if sv = [] then acc
  else
    let fv := if (sv.length : ℤ) > stage_window then pyTail sv stage_window else sv
    if fv = [] then acc
    else dictInsert acc e.1 (mkStats fv sv.length e.2.1 e.2.2)

/-- `get_stage_performance(steps, values, stage_ranges, stage_window)`:
the per-stage converged statistics, one entry per stage interval holding
in-stage samples. -/
def get_stage_performance (steps : List ℤ) (values : List ℚ)
    (stage_ranges : List (ℤ × ℤ × ℤ)) (stage_window : ℤ) : List (ℤ × PyStats) :=
  stage_ranges.foldl (gsp_step steps values stage_window) []

/-- The filesystem surface the scripts read: each run directory holds named
CSV files, each an aligned `(step, value)` series. -/
abbrev Env := List (String × List (String × (List ℤ × List ℚ)))

/-- The series stored for file `f` of run directory `d`, if present. -/
def lookup_file (e : Env) (d f : String) : Option (List ℤ × List ℚ) :=
  (dlookup d e).bind (fun files => dlookup f files)

/-- `os.path.exists` for a run directory's CSV. -/
def file_exists (e : Env) (d f : String) : Bool := (lookup_file e d f).isSome

/-- `load_csv_data`: the stored series, or `([], [])` when the file is absent
or unreadable (the script catches the exception and returns empty lists). -/
def load_csv_data (e : Env) (d f : String) : List ℤ × List ℚ :=
  (lookup_file e d f).getD ([], [])

/-- One entry of the `metrics` configuration dict of both scripts. -/
structure MetricInfo where
  key : String
  name : String
  fmt : String
deriving DecidableEq

/-- The five analyzed metrics with their display names and format kinds. -/
def metrics : List MetricInfo :=
  [⟨"Drone__Success", "Success Rate", "percentage"⟩,
   ⟨"Drone__Collisions", "Collision Rate", "percentage"⟩,
   ⟨"Environment__Cumulative_Reward", "Cumulative Reward", "float"⟩,
   ⟨"Drone__EpisodeLength", "Episode Length", "float"⟩,
   ⟨"Drone__MinDistance", "Min Distance to Goal", "float"⟩]

/-- A per-metric entry of the fallback (`analyze_final_performance_only`,
`analyze_runs`) results: in Python a dict with exactly the six keys
`mean, std, ci_lower, ci_upper, format, n_runs`. -/
structure FlatResult where
  mean : ℚ
  std_sq : ℚ
  ci_lower : ℚ
  ci_upper : ℚ
  fmt : String
  n_runs : ℕ
deriving DecidableEq

/-- A per-(metric, stage) combined result of the curriculum-aware path
(lines 191-199). -/
structure CombinedStage where
  mean : ℚ
  std_sq : ℚ
  ci_lower : ℚ
  ci_upper : ℚ
  fmt : String
  n_runs : ℕ
  range_lo : ℤ
  range_hi : ℤ
deriving DecidableEq

/-- A value of the results mapping: either a stage-keyed dict (curriculum
path) or a flat six-key dict (fallback path). -/
inductive MetricResult where
  | stages : List (ℤ × CombinedStage) → MetricResult
  | flat : FlatResult → MetricResult
deriving DecidableEq

/-- Lines 123-131: the stage ranges of the first run directory whose
`Stage__Current.csv` exists and loads non-empty (the loop breaks there);
`none` when no run supplies a usable stage series. -/
def first_stage_ranges (e : Env) (run_dirs : List String) : Option (List (ℤ × ℤ × ℤ)) :=
  run_dirs.findSome? (fun d =>
    match lookup_file e d "Stage__Current.csv" with
    | some sv => if sv.1 ≠ [] ∧ sv.2 ≠ [] then some (find_stage_transitions sv.1 sv.2) else none
    | none => none)

/-- The body of the per-run loop of lines 148-158: when the metric's CSV
exists and loads non-empty, append each of the run's per-stage converged
means to that stage's list. -/
def sp_step (e : Env) (key : String) (stage_ranges : List (ℤ × ℤ × ℤ)) (stage_window : ℤ)
    (acc : List (ℤ × List ℚ)) (d : String) : List (ℤ × List ℚ) :=
  if file_exists e d (key ++ ".csv") then
    let sv := load_csv_data e d (key ++ ".csv")
    if sv.1 ≠ [] ∧ sv.2 ≠ [] then
      (get_stage_performance sv.1 sv.2 stage_ranges stage_window).foldl
        (fun acc2 p => dict_append acc2 p.1 p.2.mean) acc
    else acc
  else acc

/-- Lines 146-158: per-stage lists of the per-run converged means of a metric,
in run order. -/
def stage_performances (e : Env) (run_dirs : List String) (key : String)
    (stage_ranges : List (ℤ × ℤ × ℤ)) (stage_window : ℤ) : List (ℤ × List ℚ) :=
  run_dirs.foldl (sp_step e key stage_ranges stage_window) []

/-- Lines 172-189: the CI of a stage to which a single run contributed.  Note
the code re-derives the raw in-stage trailing-window values from
`run_dirs[0]` — the first run directory — not from the run that contributed
the mean. -/
def single_run_ci (rng : RNG) (e : Env) (run_dirs : List String) (key : String)
    (stage_ranges : List (ℤ × ℤ × ℤ)) (stage_window : ℤ) (stage : ℤ) : ℚ × ℚ :=
  match run_dirs with
  | [] => (mkRat 0 1, mkRat 0 1)
  | d :: _ =>
    let sv := load_csv_data e d (key ++ ".csv")
    if sv.1 ≠ [] ∧ sv.2 ≠ [] then
      if stage ∈ (get_stage_performance sv.1 sv.2 stage_ranges stage_window).map Prod.fst then
        let r := (dlookup stage stage_ranges).getD (0, 0)
        let stage_vals := in_stage_values sv.1 sv.2 r.1 r.2
        let stage_vals :=
          if (stage_vals.length : ℤ) > stage_window then pyTail stage_vals stage_window
          else stage_vals
        bootstrap_ci rng stage_vals 1000 (mkRat 19 20)
      else (mkRat 0 1, mkRat 0 1)
    else (mkRat 0 1, mkRat 0 1)

/-- Lines 165-199 for one stage: mean of per-run means; `std = 0` for a single
run; CI by bootstrap over the per-run means for several runs, and by
`single_run_ci` for one. -/
def combine_stage (rng : RNG) (e : Env) (run_dirs : List String) (key fmt : String)
    (stage_ranges : List (ℤ × ℤ × ℤ)) (stage_window : ℤ) (stage : ℤ) (svals : List ℚ) :
    CombinedStage :=
  let ci :=
    if svals.length > 1 then bootstrap_ci rng svals 1000 (mkRat 19 20)
    else single_run_ci rng e run_dirs key stage_ranges stage_window stage
  let r := (dlookup stage stage_ranges).getD (0, 0)
  ⟨np_mean svals, if svals.length > 1 then np_std_sq svals else mkRat 0 1,
   ci.1, ci.2, fmt, svals.length, r.1, r.2⟩

/-- The body of the per-stage loop of lines 162-199: look up the collected
per-run means of the stage and store the combined record (the `if
stage_values:` guard of line 165 included). -/
def ms_step (rng : RNG) (e : Env) (run_dirs : List String) (key fmt : String)
    (stage_ranges : List (ℤ × ℤ × ℤ)) (stage_window : ℤ) (sp : List (ℤ × List ℚ))
    (acc : List (ℤ × CombinedStage)) (stage : ℤ) : List (ℤ × CombinedStage) :=
  match dlookup stage sp with
  | some svals =>
    if svals ≠ [] then
      dictInsert acc stage (combine_stage rng e run_dirs key fmt stage_ranges stage_window stage svals)
    else acc
  | none => acc

/-- Lines 160-199: the per-stage dict built for one metric, iterating the
stages in sorted order. -/
def metric_stages (rng : RNG) (e : Env) (run_dirs : List String) (key fmt : String)
    (stage_ranges : List (ℤ × ℤ × ℤ)) (stage_window : ℤ) : List (ℤ × CombinedStage) :=
  let sp := stage_performances e run_dirs key stage_ranges stage_window
  (isortBy (fun a b : ℤ => decide (a ≤ b)) (sp.map Prod.fst)).foldl
    (ms_step rng e run_dirs key fmt stage_ranges stage_window sp) []

/-- The body of the per-run loop of lines 211-217: extend the pooled list
with the run's trailing `final_window` samples. -/
def afp_step (e : Env) (key : String) (final_window : ℤ)
    (acc : List ℚ) (d : String) : List ℚ :=
  if file_exists e d (key ++ ".csv") then
    let sv := load_csv_data e d (key ++ ".csv")
    if sv.2 ≠ [] then
      acc ++ (if (sv.2.length : ℤ) ≥ final_window then pyTail sv.2 final_window else sv.2)
    else acc
  else acc

/-- Lines 207-231 for one metric: the flat summary of the pooled trailing
samples, or `none` when no run contributed any (line 219's guard). -/
def afp_entry (rng : RNG) (e : Env) (run_dirs : List String) (final_window : ℤ)
    (m : MetricInfo) : Option FlatResult :=
  let afv := run_dirs.foldl (afp_step e m.key final_window) []
  if afv ≠ [] then
    let ci := bootstrap_ci rng afv 1000 (mkRat 19 20)
    some ⟨np_mean afv, np_std_sq afv, ci.1, ci.2, m.fmt, run_dirs.length⟩
  else none

/-- `analyze_final_performance_only(run_dirs, final_window, metrics)`: per
metric, pool the trailing `final_window` samples of every run's series and
summarize them; metrics with no data are omitted. -/
def analyze_final_performance_only (rng : RNG) (e : Env) (run_dirs : List String)
    (final_window : ℤ) : List (String × MetricResult) :=
  metrics.filterMap (fun m =>
    (afp_entry rng e run_dirs final_window m).map (fun fr => (m.name, MetricResult.flat fr)))

/-- `analyze_curriculum_aware(run_dirs, stage_window)`: fall back to
`analyze_final_performance_only` when no stage signal is found; otherwise
build the stage-keyed dict of every metric (note line 161 creates the entry
unconditionally, so a metric without data keeps an empty dict). -/
def analyze_curriculum_aware (rng : RNG) (e : Env) (run_dirs : List String)
    (stage_window : ℤ) : List (String × MetricResult) :=
  match first_stage_ranges e run_dirs with
  | none => analyze_final_performance_only rng e run_dirs stage_window
  | some stage_ranges =>
    metrics.map (fun m =>
      (m.name, MetricResult.stages (metric_stages rng e run_dirs m.key m.fmt stage_ranges stage_window)))

/-- The Python `len` of a results entry: a stage dict has one key per stage;
a flat fallback entry is a dict with exactly six keys. -/
def py_dict_len : MetricResult → ℕ
  | MetricResult.stages l => l.length
  | MetricResult.flat _ => 6

/-- Line 433: `any(isinstance(data, dict) and len(data) > 1 for data in
results.values())` (both result shapes are dicts in Python). -/
def is_curriculum_aware_flag (results : List (String × MetricResult)) : Bool :=
  results.any (fun p => py_dict_len p.2 > 1)

/-- `get_final_performance` (generate_statistical_summary.py lines 33-38):
the final-window sample list (all samples when fewer than `window`). -/
def get_final_performance (values : List ℚ) (window : ℤ) : List ℚ :=
  if values = [] ∨ (values.length : ℤ) < window then values else pyTail values window

/-- The `mean` field of `get_final_performance`'s stats dict (0.0 when the
window is empty). -/
def final_mean (values : List ℚ) (window : ℤ) : ℚ :=
  let fv := get_final_performance values window
  if fv = [] then mkRat 0 1 else np_mean fv

/-- The body of the per-run loop of lines 83-89 of
generate_statistical_summary.py: append the run's final mean. -/
def ar_step (e : Env) (key : String) (final_window : ℤ)
    (acc : List ℚ) (d : String) : List ℚ :=
  if file_exists e d (key ++ ".csv") then
    let sv := load_csv_data e d (key ++ ".csv")
    if sv.2 ≠ [] then acc ++ [final_mean sv.2 final_window] else acc
  else acc

/-- Lines 79-117 of generate_statistical_summary.py for one metric: the
cross-run summary of the per-run final means, or `none` when no run
contributed any. -/
def ar_entry (rng : RNG) (e : Env) (run_dirs : List String) (final_window : ℤ)
    (m : MetricInfo) : Option FlatResult :=
  let afv := run_dirs.foldl (ar_step e m.key final_window) []
  if afv ≠ [] then
    let ci :=
      if afv.length > 1 then bootstrap_ci rng afv 1000 (mkRat 19 20)
      else
        match run_dirs with
        | [] => (mkRat 0 1, mkRat 0 1)
        | d :: _ =>
          let sv := load_csv_data e d (m.key ++ ".csv")
          if sv.2 ≠ [] then
            bootstrap_ci rng
              (if (sv.2.length : ℤ) ≥ final_window then pyTail sv.2 final_window else sv.2)
              1000 (mkRat 19 20)
          else (mkRat 0 1, mkRat 0 1)
    some ⟨np_mean afv, if afv.length > 1 then np_std_sq afv else mkRat 0 1,
          ci.1, ci.2, m.fmt, afv.length⟩
  else none

/-- `analyze_runs(run_dirs, final_window)` of generate_statistical_summary.py:
per metric, the per-run final means, combined across runs; metrics with no
contributing run are omitted; with a single value the CI is re-derived from
`run_dirs[0]`'s final window. -/
def analyze_runs (rng : RNG) (e : Env) (run_dirs : List String)
    (final_window : ℤ) : List (String × FlatResult) :=
  metrics.filterMap (fun m =>
    (ar_entry rng e run_dirs final_window m).map (fun fr => (m.name, fr)))

/-- Rounding half to even, the rounding of Python's fixed-point formatting. -/
def round_half_even (q : ℚ) : ℤ :=
  let f := ⌊q⌋
  let r := qsub q (mkRat f 1)
  if r < mkRat 1 2 then f
  else if mkRat 1 2 < r then f + 1
  else if f % 2 = 0 then f else f + 1

/-- Left-pad a digit string with zeros to `d` digits. -/
def pad_zeros (s : String) (d : ℕ) : String :=
  String.mk (List.replicate (d - s.length) '0') ++ s

/-- Python's `f"{q:.df}"` fixed-point formatting over exact rationals
(no decimal point when `d = 0`). -/
def format_fixed (q : ℚ) (d : ℕ) : String :=
  let scaled := round_half_even (qmul q (mkRat (Int.ofNat (10 ^ d)) 1))
  let sign := if scaled < 0 then "-" else ""
  let m := scaled.natAbs
  if d = 0 then sign ++ toString m
  else sign ++ toString (m / 10 ^ d) ++ "." ++ pad_zeros (toString (m % 10 ^ d)) d

/-- `format_value(value, format_type)` (lines 235-244, identical in both
scripts): percentages as `value*100` to 1 decimal plus `%`; floats rounded to
an integer when `abs(value) > 100`, else 2 decimals; 3 decimals otherwise. -/
def format_value (value : ℚ) (format_type : String) : String :=
  if format_type = "percentage" then format_fixed (qmul value (mkRat 100 1)) 1 ++ "%"
  else if format_type = "float" then
    if mkRat 100 1 < qabs value then format_fixed value 0 else format_fixed value 2
  else format_fixed value 3

/-! ### Concrete test environments used by witnesses and counterexamples -/

/-- A resampling source that always draws index 0. -/
def rngZero : RNG := fun _ _ => 0

/-- A source agreeing with `rngZero` on the draws consulted for 2 resamples
over 2 data points, and differing elsewhere. -/
def rngAlt : RNG := fun t p => if t < 2 ∧ p < 2 then 0 else 99

/-- One run directory with a success series but no stage signal. -/
def envC1 : Env :=
  [("run1", [("Drone__Success.csv", ([0, 1, 2], [mkRat 1 2, mkRat 1 2, mkRat 1 2]))])]

/-- One run directory with only a stage signal and no metric series. -/
def envC2 : Env :=
  [("run1", [("Stage__Current.csv", ([0, 1], [mkRat 0 1, mkRat 1 1]))])]

/-- Two run directories: the first holds only the stage signal, the second
holds only the success series (so it is the sole contributor of the metric). -/
def envC3 : Env :=
  [("runA", [("Stage__Current.csv", ([0, 1], [mkRat 0 1, mkRat 0 1]))]),
   ("runB", [("Drone__Success.csv", ([0, 1], [mkRat 1 1, mkRat 1 1]))])]

/-- A single run directory holding both the stage signal and the success
series (so the sole contributor is also the first run directory). -/
def envW3 : Env :=
  [("run1", [("Stage__Current.csv", ([0, 1], [mkRat 0 1, mkRat 0 1])),
             ("Drone__Success.csv", ([0, 1], [mkRat 1 1, mkRat 1 1]))])]

/-- The closed output of the scan once the previous step is tracked: the
accumulated ranges of `fstLoop` with the final open stage closed at the last
observed step (proof-side view of `find_stage_transitions`). -/
def closedOut (pairs : List (ℤ × ℚ)) (cur st prv : ℤ) : List (ℤ × ℤ × ℤ) :=
  let res := fstLoop pairs [] cur st (some prv)
  dictInsert res.1 res.2.1 (res.2.2, (pairs.map Prod.fst).getLastD prv)

/-- Ordered-interval chain: every interval of the list starts at or after
`lo`, is non-degenerate, and ends strictly before the next one starts (used to
state that segmentation output partitions the observed steps). -/
def intervalChain : ℤ → List (ℤ × ℤ × ℤ) → Prop
  | _, [] => True
  | lo, e :: t => lo ≤ e.2.1 ∧ e.2.1 ≤ e.2.2 ∧ intervalChain (e.2.2 + 1) t

/-! ### Bridge lemmas: the executable rational operations are the field
operations of `ℚ`. -/

theorem qadd_eq (a b : ℚ) : qadd a b = a + b := by
  rw [qadd, Rat.add_def, Rat.normalize_eq_mkRat]

theorem qsub_eq (a b : ℚ) : qsub a b = a - b := by
  rw [qsub, Rat.sub_def, Rat.normalize_eq_mkRat]

theorem qmul_eq (a b : ℚ) : qmul a b = a * b := by
  rw [qmul, Rat.mul_def, Rat.normalize_eq_mkRat]

theorem qneg_eq (a : ℚ) : qneg a = -a := by
  rw [qneg, Rat.neg_def, Rat.mkRat_eq_divInt]

theorem qabs_eq (a : ℚ) : qabs a = |a| := by
  rcases le_or_lt 0 a with h | h
  · rw [abs_of_nonneg h]
    unfold qabs
    rw [show ((a.num.natAbs : ℤ)) = a.num from Int.natAbs_of_nonneg (Rat.num_nonneg.mpr h)]
    exact Rat.mkRat_self a
  · rw [abs_of_neg h, ← qneg_eq]
    unfold qabs qneg
    congr 1
    have : a.num < 0 := Rat.num_neg.mpr h
    omega

theorem qleB_eq (a b : ℚ) : qleB a b = decide (a ≤ b) := by
  unfold qleB
  by_cases h : a ≤ b
  · have hb : Rat.blt b a = false := h
    simp [hb, h]
  · have hb : Rat.blt b a = true := by
      cases hb2 : Rat.blt b a
      · exact absurd hb2 h
      · rfl
    simp [hb, h]

/-! ### Helper lemmas -/

/-- The loop of `find_stage_transitions` behaves identically once the previous
step is tracked, regardless of which expression the dead `i = 0` arm holds. -/
theorem fstLoop_eq_alt (pairs : List (ℤ × ℚ)) : ∀ (r : List (ℤ × ℤ × ℤ)) (cur st p : ℤ),
    fstLoop pairs r cur st (some p) = fstLoopAlt pairs r cur st (some p) := by
  induction pairs with
  | nil => intro r cur st p; rfl
  | cons hd tl ih =>
    intro r cur st p
    obtain ⟨step, v⟩ := hd
    by_cases h : pyInt v ≠ cur
    · simp only [fstLoop, fstLoopAlt, if_pos h, Option.getD_some]
      exact ih _ _ _ _
    · simp only [fstLoop, fstLoopAlt, if_neg h]
      exact ih _ _ _ _


theorem dlookup_eq_none {A B : Type} [DecidableEq A] (d : List (A × B)) (k : A)
    (h : k ∉ d.map Prod.fst) : dlookup k d = none := by
  induction d with
  | nil => rfl
  | cons p t ih =>
    simp only [List.map_cons, List.mem_cons, not_or] at h
    simp only [dlookup]
    rw [if_neg (fun hp : p.1 = k => h.1 hp.symm)]
    exact ih h.2

theorem dlookup_mem_keys {A B : Type} [DecidableEq A] {d : List (A × B)} {k : A} {v : B}
    (h : dlookup k d = some v) : k ∈ d.map Prod.fst := by
  by_contra hk
  rw [dlookup_eq_none d k hk] at h
  cases h

theorem dlookup_map_replace {A B : Type} [DecidableEq A] (d : List (A × B)) (k : A) (v : B)
    (h : k ∈ d.map Prod.fst) :
    dlookup k (d.map fun p => if p.1 = k then (k, v) else p) = some v := by
  induction d with
  | nil => cases h
  | cons p t ih =>
    simp only [List.map_cons]
    by_cases hp : p.1 = k
    · rw [if_pos hp]
      simp [dlookup]
    · have h' : k ∈ t.map Prod.fst := by
        simp only [List.map_cons, List.mem_cons] at h
        rcases h with h | h
        · exact absurd h.symm hp
        · exact h
      rw [if_neg hp]
      simp only [dlookup]
      rw [if_neg (fun hpk : p.1 = k => hp hpk)]
      exact ih h'

theorem dlookup_map_replace_ne {A B : Type} [DecidableEq A] (d : List (A × B)) (k k' : A)
    (v : B) (h : k' ≠ k) :
    dlookup k' (d.map fun p => if p.1 = k then (k, v) else p) = dlookup k' d := by
  induction d with
  | nil => rfl
  | cons p t ih =>
    simp only [List.map_cons]
    by_cases hp : p.1 = k
    · rw [if_pos hp]
      simp only [dlookup]
      rw [if_neg (fun hk : k = k' => h hk.symm),
          if_neg (fun hpk : p.1 = k' => h (hpk.symm.trans hp))]
      exact ih
    · rw [if_neg hp]
      simp only [dlookup]
      by_cases hpk : p.1 = k'
      · rw [if_pos hpk, if_pos hpk]
      · rw [if_neg hpk, if_neg hpk]
        exact ih

theorem dlookup_append_sing {A B : Type} [DecidableEq A] (d : List (A × B)) (k : A) (v : B)
    (h : k ∉ d.map Prod.fst) : dlookup k (d ++ [(k, v)]) = some v := by
  induction d with
  | nil => simp [dlookup]
  | cons p t ih =>
    simp only [List.map_cons, List.mem_cons, not_or] at h
    simp only [List.cons_append, dlookup]
    rw [if_neg (fun hp : p.1 = k => h.1 hp.symm)]
    exact ih h.2

theorem dlookup_append_sing_ne {A B : Type} [DecidableEq A] (d : List (A × B)) (k k' : A)
    (v : B) (h : k' ≠ k) : dlookup k' (d ++ [(k, v)]) = dlookup k' d := by
  induction d with
  | nil =>
    simp only [List.nil_append, dlookup]
    rw [if_neg (fun hk : k = k' => h hk.symm)]
  | cons p t ih =>
    simp only [List.cons_append, dlookup]
    by_cases hpk : p.1 = k'
    · rw [if_pos hpk, if_pos hpk]
    · rw [if_neg hpk, if_neg hpk]
      exact ih

theorem dlookup_dictInsert_self {A B : Type} [DecidableEq A] (d : List (A × B)) (k : A)
    (v : B) : dlookup k (dictInsert d k v) = some v := by
  unfold dictInsert
  by_cases h : k ∈ d.map Prod.fst
  · rw [if_pos h]
    exact dlookup_map_replace d k v h
  · rw [if_neg h]
    exact dlookup_append_sing d k v h

theorem dlookup_dictInsert_ne {A B : Type} [DecidableEq A] (d : List (A × B)) (k k' : A)
    (v : B) (h : k' ≠ k) : dlookup k' (dictInsert d k v) = dlookup k' d := by
  unfold dictInsert
  by_cases hm : k ∈ d.map Prod.fst
  · rw [if_pos hm]
    exact dlookup_map_replace_ne d k k' v h
  · rw [if_neg hm]
    exact dlookup_append_sing_ne d k k' v h

theorem pyTail_trailing {A : Type} (l : List A) (w : ℤ) (hw : 1 ≤ w)
    (hl : w < (l.length : ℤ)) :
    pyTail l w = l.drop (l.length - w.toNat) := by
  unfold pyTail
  rw [if_pos (show -w < 0 by omega)]
  congr 1
  rw [max_eq_left (show (0 : ℤ) ≤ (l.length : ℤ) + -w by omega)]
  omega

theorem gsp_step_lookup_ne (steps : List ℤ) (values : List ℚ) (w : ℤ)
    (acc : List (ℤ × PyStats)) (e : ℤ × ℤ × ℤ) (k : ℤ) (hk : k ≠ e.1) :
    dlookup k (gsp_step steps values w acc e) = dlookup k acc := by
  simp only [gsp_step]
  repeat' split
  all_goals first | rfl | exact dlookup_dictInsert_ne _ _ _ _ hk

theorem gsp_fold_skip (steps : List ℤ) (values : List ℚ) (w : ℤ) :
    ∀ (ranges : List (ℤ × ℤ × ℤ)) (acc : List (ℤ × PyStats)) (k : ℤ),
      k ∉ ranges.map Prod.fst →
      dlookup k (ranges.foldl (gsp_step steps values w) acc) = dlookup k acc := by
  intro ranges
  induction ranges with
  | nil => intro acc k _; rfl
  | cons e t ih =>
    intro acc k hk
    simp only [List.map_cons, List.mem_cons, not_or] at hk
    rw [List.foldl_cons, ih _ _ hk.2, gsp_step_lookup_ne steps values w acc e k hk.1]

theorem gsp_fold_found (steps : List ℤ) (values : List ℚ) (w : ℤ) (stage lo hi : ℤ)
    (hsv : in_stage_values steps values lo hi ≠ [])
    (hfv : (if ((in_stage_values steps values lo hi).length : ℤ) > w
            then pyTail (in_stage_values steps values lo hi) w
            else in_stage_values steps values lo hi) ≠ []) :
    ∀ (ranges : List (ℤ × ℤ × ℤ)) (acc : List (ℤ × PyStats)),
      (ranges.map Prod.fst).Nodup → (stage, lo, hi) ∈ ranges →
      dlookup stage (ranges.foldl (gsp_step steps values w) acc)
        = some (mkStats
            (if ((in_stage_values steps values lo hi).length : ℤ) > w
             then pyTail (in_stage_values steps values lo hi) w
             else in_stage_values steps values lo hi)
            (in_stage_values steps values lo hi).length lo hi) := by
  intro ranges
  induction ranges with
  | nil => intro acc _ hm; cases hm
  | cons p t ih =>
    intro acc hnd hm
    rw [List.foldl_cons]
    simp only [List.map_cons, List.nodup_cons] at hnd
    rcases List.mem_cons.mp hm with he | ht
    · subst he
      rw [gsp_fold_skip steps values w t _ stage hnd.1]
      simp only [gsp_step]
      rw [if_neg hsv, if_neg hfv]
      exact dlookup_dictInsert_self _ _ _
    · exact ih (gsp_step steps values w acc p) hnd.2 ht


theorem mem_keys_dictInsert {A B : Type} [DecidableEq A] (d : List (A × B)) (k k' : A)
    (v : B) (h : k' ∈ (dictInsert d k v).map Prod.fst) :
    k' ∈ d.map Prod.fst ∨ k' = k := by
  unfold dictInsert at h
  by_cases hm : k ∈ d.map Prod.fst
  · rw [if_pos hm, List.map_map] at h
    rcases List.mem_map.mp h with ⟨p, hp, hq⟩
    by_cases hpk : p.1 = k
    · right
      simp only [Function.comp, hpk, if_pos rfl] at hq
      exact hq.symm
    · left
      simp only [Function.comp, if_neg hpk] at hq
      exact hq ▸ List.mem_map_of_mem Prod.fst hp
  · rw [if_neg hm, List.map_append] at h
    rcases List.mem_append.mp h with h | h
    · exact Or.inl h
    · right
      simp only [List.map_cons, List.map_nil, List.mem_singleton] at h
      exact h

theorem fstLoop_keys (pairs : List (ℤ × ℚ)) :
    ∀ (r : List (ℤ × ℤ × ℤ)) (cur st : ℤ) (p : Option ℤ),
      (∀ k ∈ (fstLoop pairs r cur st p).1.map Prod.fst,
          k ∈ r.map Prod.fst ∨ k = cur ∨ k ∈ pairs.map (fun q => pyInt q.2)) ∧
      ((fstLoop pairs r cur st p).2.1 = cur
        ∨ (fstLoop pairs r cur st p).2.1 ∈ pairs.map (fun q => pyInt q.2)) := by
  induction pairs with
  | nil => exact fun r cur st p => ⟨fun k hk => Or.inl hk, Or.inl rfl⟩
  | cons hd tl ih =>
    intro r cur st p
    obtain ⟨step, v⟩ := hd
    by_cases h : pyInt v ≠ cur
    · simp only [fstLoop, if_pos h]
      obtain ⟨ih1, ih2⟩ := ih (dictInsert r cur (st, p.getD step)) (pyInt v) step (some step)
      refine ⟨fun k hk => ?_, ?_⟩
      · rcases ih1 k hk with hk1 | hk1 | hk1
        · rcases mem_keys_dictInsert r cur k _ hk1 with h2 | h2
          · exact Or.inl h2
          · exact Or.inr (Or.inl h2)
        · refine Or.inr (Or.inr ?_)
          simp only [List.map_cons, List.mem_cons]
          exact Or.inl hk1
        · refine Or.inr (Or.inr ?_)
          simp only [List.map_cons, List.mem_cons]
          exact Or.inr hk1
      · rcases ih2 with h2 | h2
        · refine Or.inr ?_
          simp only [List.map_cons, List.mem_cons]
          exact Or.inl h2
        · refine Or.inr ?_
          simp only [List.map_cons, List.mem_cons]
          exact Or.inr h2
    · simp only [fstLoop, if_neg h]
      obtain ⟨ih1, ih2⟩ := ih r cur st (some step)
      refine ⟨fun k hk => ?_, ?_⟩
      · rcases ih1 k hk with hk1 | hk1 | hk1
        · exact Or.inl hk1
        · exact Or.inr (Or.inl hk1)
        · refine Or.inr (Or.inr ?_)
          simp only [List.map_cons, List.mem_cons]
          exact Or.inr hk1
      · rcases ih2 with h2 | h2
        · exact Or.inl h2
        · refine Or.inr ?_
          simp only [List.map_cons, List.mem_cons]
          exact Or.inr h2


theorem keys_filterMap_sub {B : Type} (t : List MetricInfo) (g : MetricInfo → Option B)
    (k : String)
    (h : k ∈ (t.filterMap (fun x => (g x).map (fun b => (x.name, b)))).map Prod.fst) :
    k ∈ t.map (fun x => x.name) := by
  induction t with
  | nil => simp at h
  | cons x t ih =>
    simp only [List.filterMap_cons] at h
    simp only [List.map_cons, List.mem_cons]
    cases hg : g x with
    | none =>
      rw [hg] at h
      exact Or.inr (ih h)
    | some b =>
      rw [hg] at h
      simp only [Option.map_some', List.map_cons, List.mem_cons] at h
      rcases h with h | h
      · exact Or.inl h
      · exact Or.inr (ih h)

theorem dlookup_metric_filterMap {B : Type} (ms : List MetricInfo) (g : MetricInfo → Option B)
    (m : MetricInfo) (hnd : (ms.map (fun x => x.name)).Nodup) (hm : m ∈ ms) :
    dlookup m.name (ms.filterMap (fun x => (g x).map (fun b => (x.name, b)))) = g m := by
  induction ms with
  | nil => cases hm
  | cons x t ih =>
    simp only [List.map_cons, List.nodup_cons] at hnd
    rcases List.mem_cons.mp hm with he | ht
    · subst he
      simp only [List.filterMap_cons]
      cases hg : g m with
      | none =>
        simp only [Option.map_none']
        apply dlookup_eq_none
        intro hmem
        exact hnd.1 (keys_filterMap_sub t g m.name hmem)
      | some b =>
        simp [Option.map_some', dlookup]
    · have hx : ¬ (x.name = m.name) := by
        intro heq
        apply hnd.1
        rw [heq]
        exact List.mem_map_of_mem (fun y => y.name) ht
      simp only [List.filterMap_cons]
      cases hg : g x with
      | none => exact ih hnd.2 ht
      | some b =>
        simp only [Option.map_some', dlookup]
        rw [if_neg hx]
        exact ih hnd.2 ht

theorem dlookup_metric_map {B : Type} (ms : List MetricInfo) (g : MetricInfo → B)
    (m : MetricInfo) (hnd : (ms.map (fun x => x.name)).Nodup) (hm : m ∈ ms) :
    dlookup m.name (ms.map (fun x => (x.name, g x))) = some (g m) := by
  induction ms with
  | nil => cases hm
  | cons x t ih =>
    simp only [List.map_cons, List.nodup_cons] at hnd
    rcases List.mem_cons.mp hm with he | ht
    · subst he
      simp [List.map_cons, dlookup]
    · have hx : ¬ (x.name = m.name) := by
        intro heq
        apply hnd.1
        rw [heq]
        exact List.mem_map_of_mem (fun y => y.name) ht
      simp only [List.map_cons, dlookup]
      rw [if_neg hx]
      exact ih hnd.2 ht

theorem afp_step_skip (e : Env) (key : String) (w : ℤ) (acc : List ℚ) (d : String)
    (h : file_exists e d (key ++ ".csv") = false) : afp_step e key w acc d = acc := by
  simp [afp_step, h]

theorem afp_fold_skip (e : Env) (key : String) (w : ℤ) :
    ∀ (dirs : List String) (acc : List ℚ),
      (∀ d ∈ dirs, file_exists e d (key ++ ".csv") = false) →
      dirs.foldl (afp_step e key w) acc = acc := by
  intro dirs
  induction dirs with
  | nil => intro acc _; rfl
  | cons d t ih =>
    intro acc h
    rw [List.foldl_cons, afp_step_skip e key w acc d (h d (List.mem_cons_self d t))]
    exact ih acc (fun d' hd' => h d' (List.mem_cons.mpr (Or.inr hd')))

theorem ar_step_skip (e : Env) (key : String) (w : ℤ) (acc : List ℚ) (d : String)
    (h : file_exists e d (key ++ ".csv") = false) : ar_step e key w acc d = acc := by
  simp [ar_step, h]

theorem ar_fold_skip (e : Env) (key : String) (w : ℤ) :
    ∀ (dirs : List String) (acc : List ℚ),
      (∀ d ∈ dirs, file_exists e d (key ++ ".csv") = false) →
      dirs.foldl (ar_step e key w) acc = acc := by
  intro dirs
  induction dirs with
  | nil => intro acc _; rfl
  | cons d t ih =>
    intro acc h
    rw [List.foldl_cons, ar_step_skip e key w acc d (h d (List.mem_cons_self d t))]
    exact ih acc (fun d' hd' => h d' (List.mem_cons.mpr (Or.inr hd')))

theorem sp_step_skip (e : Env) (key : String) (stage_ranges : List (ℤ × ℤ × ℤ))
    (stage_window : ℤ) (acc : List (ℤ × List ℚ)) (d : String)
    (h : file_exists e d (key ++ ".csv") = false) :
    sp_step e key stage_ranges stage_window acc d = acc := by
  simp [sp_step, h]

theorem sp_fold_skip (e : Env) (key : String) (stage_ranges : List (ℤ × ℤ × ℤ))
    (stage_window : ℤ) :
    ∀ (dirs : List String) (acc : List (ℤ × List ℚ)),
      (∀ d ∈ dirs, file_exists e d (key ++ ".csv") = false) →
      dirs.foldl (sp_step e key stage_ranges stage_window) acc = acc := by
  intro dirs
  induction dirs with
  | nil => intro acc _; rfl
  | cons d t ih =>
    intro acc h
    rw [List.foldl_cons,
      sp_step_skip e key stage_ranges stage_window acc d (h d (List.mem_cons_self d t))]
    exact ih acc (fun d' hd' => h d' (List.mem_cons.mpr (Or.inr hd')))


theorem keys_dict_append (d : List (ℤ × List ℚ)) (k : ℤ) (v : ℚ) :
    (dict_append d k v).map Prod.fst
      = if k ∈ d.map Prod.fst then d.map Prod.fst else d.map Prod.fst ++ [k] := by
  unfold dict_append
  by_cases h : k ∈ d.map Prod.fst
  · rw [if_pos h, if_pos h, List.map_map]
    apply List.map_congr_left
    intro p _
    by_cases hpk : p.1 = k <;> simp [hpk]
  · rw [if_neg h, if_neg h, List.map_append]
    rfl

theorem nodup_keys_dict_append (d : List (ℤ × List ℚ)) (k : ℤ) (v : ℚ)
    (h : (d.map Prod.fst).Nodup) : ((dict_append d k v).map Prod.fst).Nodup := by
  rw [keys_dict_append]
  by_cases hk : k ∈ d.map Prod.fst
  · rw [if_pos hk]
    exact h
  · rw [if_neg hk]
    rw [List.nodup_append]
    refine ⟨h, List.nodup_singleton k, ?_⟩
    intro a ha hb
    rw [List.mem_singleton] at hb
    exact hk (hb ▸ ha)

theorem nodup_keys_dappend_fold (perf : List (ℤ × PyStats)) :
    ∀ acc : List (ℤ × List ℚ), (acc.map Prod.fst).Nodup →
      ((perf.foldl (fun acc2 p => dict_append acc2 p.1 p.2.mean) acc).map Prod.fst).Nodup := by
  induction perf with
  | nil => exact fun acc h => h
  | cons p t ih =>
    intro acc h
    rw [List.foldl_cons]
    exact ih _ (nodup_keys_dict_append _ _ _ h)

theorem nodup_keys_sp_step (e : Env) (key : String) (stage_ranges : List (ℤ × ℤ × ℤ))
    (stage_window : ℤ) (acc : List (ℤ × List ℚ)) (d : String)
    (h : (acc.map Prod.fst).Nodup) :
    ((sp_step e key stage_ranges stage_window acc d).map Prod.fst).Nodup := by
  simp only [sp_step]
  repeat' split
  all_goals first | exact h | exact nodup_keys_dappend_fold _ acc h

theorem nodup_keys_sp_fold (e : Env) (key : String) (stage_ranges : List (ℤ × ℤ × ℤ))
    (stage_window : ℤ) :
    ∀ (dirs : List String) (acc : List (ℤ × List ℚ)), (acc.map Prod.fst).Nodup →
      ((dirs.foldl (sp_step e key stage_ranges stage_window) acc).map Prod.fst).Nodup := by
  intro dirs
  induction dirs with
  | nil => exact fun acc h => h
  | cons d t ih =>
    intro acc h
    rw [List.foldl_cons]
    exact ih _ (nodup_keys_sp_step e key stage_ranges stage_window acc d h)

theorem nodup_keys_stage_performances (e : Env) (run_dirs : List String) (key : String)
    (stage_ranges : List (ℤ × ℤ × ℤ)) (stage_window : ℤ) :
    ((stage_performances e run_dirs key stage_ranges stage_window).map Prod.fst).Nodup := by
  rw [stage_performances]
  exact nodup_keys_sp_fold e key stage_ranges stage_window run_dirs [] List.nodup_nil

theorem insertSortedBy_perm {A : Type} (le : A → A → Bool) (x : A) (l : List A) :
    (insertSortedBy le x l).Perm (x :: l) := by
  induction l with
  | nil => exact List.Perm.refl _
  | cons y t ih =>
    simp only [insertSortedBy]
    split
    · exact List.Perm.refl _
    · exact (List.Perm.cons y ih).trans (List.Perm.swap x y t)

theorem isortBy_perm {A : Type} (le : A → A → Bool) (l : List A) :
    (isortBy le l).Perm l := by
  induction l with
  | nil => exact List.Perm.refl _
  | cons x t ih =>
    simp only [isortBy, List.foldr_cons]
    exact (insertSortedBy_perm le x _).trans (List.Perm.cons x ih)

theorem ms_step_lookup_ne (rng : RNG) (e : Env) (run_dirs : List String) (key fmt : String)
    (stage_ranges : List (ℤ × ℤ × ℤ)) (stage_window : ℤ) (sp : List (ℤ × List ℚ))
    (acc : List (ℤ × CombinedStage)) (stage k : ℤ) (hk : k ≠ stage) :
    dlookup k (ms_step rng e run_dirs key fmt stage_ranges stage_window sp acc stage)
      = dlookup k acc := by
  simp only [ms_step]
  repeat' split
  all_goals first | rfl | exact dlookup_dictInsert_ne _ _ _ _ hk

theorem ms_fold_skip (rng : RNG) (e : Env) (run_dirs : List String) (key fmt : String)
    (stage_ranges : List (ℤ × ℤ × ℤ)) (stage_window : ℤ) (sp : List (ℤ × List ℚ)) :
    ∀ (ks : List ℤ) (acc : List (ℤ × CombinedStage)) (k : ℤ), k ∉ ks →
      dlookup k (ks.foldl (ms_step rng e run_dirs key fmt stage_ranges stage_window sp) acc)
        = dlookup k acc := by
  intro ks
  induction ks with
  | nil => intro acc k _; rfl
  | cons s t ih =>
    intro acc k hk
    simp only [List.mem_cons, not_or] at hk
    rw [List.foldl_cons, ih _ _ hk.2,
      ms_step_lookup_ne rng e run_dirs key fmt stage_ranges stage_window sp acc s k hk.1]

theorem ms_fold_found (rng : RNG) (e : Env) (run_dirs : List String) (key fmt : String)
    (stage_ranges : List (ℤ × ℤ × ℤ)) (stage_window : ℤ) (sp : List (ℤ × List ℚ))
    (stage : ℤ) (svals : List ℚ) (hsp : dlookup stage sp = some svals) (hne : svals ≠ []) :
    ∀ (ks : List ℤ) (acc : List (ℤ × CombinedStage)), ks.Nodup → stage ∈ ks →
      dlookup stage (ks.foldl (ms_step rng e run_dirs key fmt stage_ranges stage_window sp) acc)
        = some (combine_stage rng e run_dirs key fmt stage_ranges stage_window stage svals) := by
  intro ks
  induction ks with
  | nil => intro acc _ hm; cases hm
  | cons s t ih =>
    intro acc hnd hm
    rw [List.foldl_cons]
    rw [List.nodup_cons] at hnd
    rcases List.mem_cons.mp hm with he | ht
    · subst he
      rw [ms_fold_skip rng e run_dirs key fmt stage_ranges stage_window sp t _ stage hnd.1]
      simp only [ms_step, hsp]
      rw [if_pos hne]
      exact dlookup_dictInsert_self _ _ _
    · exact ih _ hnd.2 ht


theorem chunkIds_collapse (cur i : ℤ) (ids : List ℤ) (h : i = cur) :
    chunkIds (cur :: i :: ids) = chunkIds (cur :: ids) := by
  simp [chunkIds, chunkAux, h]

theorem chunkIds_split (cur i : ℤ) (ids : List ℤ) (h : ¬ i = cur) :
    chunkIds (cur :: i :: ids) = cur :: chunkIds (i :: ids) := by
  simp [chunkIds, chunkAux, h]

theorem intervalChain_mono (out : List (ℤ × ℤ × ℤ)) (lo lo' : ℤ) (h : lo' ≤ lo)
    (hc : intervalChain lo out) : intervalChain lo' out := by
  cases out with
  | nil => trivial
  | cons e t =>
    obtain ⟨h1, h2, h3⟩ := hc
    exact ⟨le_trans h h1, h2, h3⟩

theorem intervalChain_lb (out : List (ℤ × ℤ × ℤ)) : ∀ lo, intervalChain lo out →
    ∀ e ∈ out, lo ≤ e.2.1 ∧ e.2.1 ≤ e.2.2 := by
  induction out with
  | nil => intro lo _ e he; cases he
  | cons f t ih =>
    intro lo hc e he
    obtain ⟨h1, h2, h3⟩ := hc
    rcases List.mem_cons.mp he with he | he
    · subst he
      exact ⟨h1, h2⟩
    · obtain ⟨ha, hb⟩ := ih _ h3 e he
      exact ⟨by omega, hb⟩

theorem intervalChain_count (out : List (ℤ × ℤ × ℤ)) : ∀ lo, intervalChain lo out →
    ∀ x : ℤ, out.countP (fun e => decide (e.2.1 ≤ x ∧ x ≤ e.2.2)) ≤ 1 := by
  induction out with
  | nil => intro lo _ x; simp
  | cons f t ih =>
    intro lo hc x
    obtain ⟨h1, h2, h3⟩ := hc
    rw [List.countP_cons]
    by_cases hx : f.2.1 ≤ x ∧ x ≤ f.2.2
    · have ht : t.countP (fun e => decide (e.2.1 ≤ x ∧ x ≤ e.2.2)) = 0 := by
        rw [List.countP_eq_zero]
        intro e he
        obtain ⟨ha, _⟩ := intervalChain_lb t _ h3 e he
        simp only [decide_eq_true_eq, not_and]
        intro hc2
        omega
      have hdt : decide (f.2.1 ≤ x ∧ x ≤ f.2.2) = true := by simpa using hx
      rw [ht, hdt]
      simp
    · have hd : decide (f.2.1 ≤ x ∧ x ≤ f.2.2) = false := by
        simp only [decide_eq_false_iff_not]
        exact hx
      rw [hd]
      simpa using ih _ h3 x


theorem dictInsert_cons_ne {A B : Type} [DecidableEq A] (a : A × B) (d : List (A × B))
    (k : A) (v : B) (h : k ≠ a.1) : dictInsert (a :: d) k v = a :: dictInsert d k v := by
  unfold dictInsert
  by_cases hm : k ∈ (a :: d).map Prod.fst
  · have hm' : k ∈ d.map Prod.fst := by
      simp only [List.map_cons, List.mem_cons] at hm
      rcases hm with hm | hm
      · exact absurd hm h
      · exact hm
    rw [if_pos hm, if_pos hm']
    simp only [List.map_cons]
    rw [if_neg (fun ha : a.1 = k => h ha.symm)]
  · have hm' : k ∉ d.map Prod.fst := by
      intro hx
      exact hm (by simp only [List.map_cons, List.mem_cons]; exact Or.inr hx)
    rw [if_neg hm, if_neg hm']
    rfl

theorem fstLoop_final_mem (pairs : List (ℤ × ℚ)) :
    ∀ (r : List (ℤ × ℤ × ℤ)) (cur st : ℤ) (p : Option ℤ),
      (fstLoop pairs r cur st p).2.1 ∈ chunkIds (cur :: pairs.map (fun q => pyInt q.2)) := by
  induction pairs with
  | nil =>
    intro r cur st p
    simp [fstLoop, chunkIds]
  | cons hd tl ih =>
    intro r cur st p
    obtain ⟨step, v⟩ := hd
    simp only [List.map_cons]
    by_cases h : pyInt v = cur
    · rw [chunkIds_collapse cur (pyInt v) _ h]
      simp only [fstLoop, if_neg (show ¬ pyInt v ≠ cur by simpa using h)]
      exact ih r cur st (some step)
    · rw [chunkIds_split cur (pyInt v) _ h]
      simp only [fstLoop, if_pos (show pyInt v ≠ cur from h)]
      exact List.mem_cons_of_mem cur (ih _ (pyInt v) step (some step))

theorem fstLoop_acc (pairs : List (ℤ × ℚ)) :
    ∀ (r : List (ℤ × ℤ × ℤ)) (cur st : ℤ) (p : Option ℤ),
      (∀ k ∈ chunkIds (cur :: pairs.map (fun q => pyInt q.2)), k ∉ r.map Prod.fst) →
      (chunkIds (cur :: pairs.map (fun q => pyInt q.2))).Nodup →
      fstLoop pairs r cur st p
        = (r ++ (fstLoop pairs [] cur st p).1, (fstLoop pairs [] cur st p).2) := by
  induction pairs with
  | nil =>
    intro r cur st p _ _
    simp [fstLoop]
  | cons hd tl ih =>
    intro r cur st p hdisj hnd
    obtain ⟨step, v⟩ := hd
    simp only [List.map_cons] at hdisj hnd
    by_cases h : pyInt v = cur
    · rw [chunkIds_collapse cur (pyInt v) _ h] at hdisj hnd
      simp only [fstLoop, if_neg (show ¬ pyInt v ≠ cur by simpa using h)]
      exact ih r cur st (some step) hdisj hnd
    · rw [chunkIds_split cur (pyInt v) _ h] at hdisj hnd
      have hnd' := (List.nodup_cons.mp hnd).2
      have hcur_notin := (List.nodup_cons.mp hnd).1
      have hc_notin_r : cur ∉ r.map Prod.fst :=
        hdisj cur (List.mem_cons_self _ _)
      have hIns : dictInsert r cur (st, p.getD step) = r ++ [(cur, st, p.getD step)] := by
        unfold dictInsert
        rw [if_neg hc_notin_r]
      have hIns0 : dictInsert ([] : List (ℤ × ℤ × ℤ)) cur (st, p.getD step)
          = [(cur, st, p.getD step)] := rfl
      have hdisj1 : ∀ k ∈ chunkIds (pyInt v :: tl.map (fun q => pyInt q.2)),
          k ∉ (r ++ [(cur, st, p.getD step)]).map Prod.fst := by
        intro k hk
        rw [List.map_append]
        intro hmem
        rcases List.mem_append.mp hmem with hm | hm
        · exact hdisj k (List.mem_cons_of_mem _ hk) hm
        · simp only [List.map_cons, List.map_nil, List.mem_singleton] at hm
          exact hcur_notin (hm ▸ hk)
      have hdisj2 : ∀ k ∈ chunkIds (pyInt v :: tl.map (fun q => pyInt q.2)),
          k ∉ ([(cur, st, p.getD step)] : List (ℤ × ℤ × ℤ)).map Prod.fst := by
        intro k hk
        simp only [List.map_cons, List.map_nil, List.mem_singleton]
        intro hm
        exact hcur_notin (hm ▸ hk)
      simp only [fstLoop, if_pos (show pyInt v ≠ cur from h)]
      rw [hIns, hIns0,
        ih (r ++ [(cur, st, p.getD step)]) (pyInt v) step (some step) hdisj1 hnd',
        ih [(cur, st, p.getD step)] (pyInt v) step (some step) hdisj2 hnd',
        List.append_assoc]


theorem fstLoop_segmentation (pairs : List (ℤ × ℚ)) :
    ∀ (cur st prv : ℤ),
      st ≤ prv →
      List.Chain' (· < ·) (prv :: pairs.map Prod.fst) →
      (chunkIds (cur :: pairs.map (fun q => pyInt q.2))).Nodup →
      ((closedOut pairs cur st prv).map Prod.fst
          = chunkIds (cur :: pairs.map (fun q => pyInt q.2)) ∧
       intervalChain st (closedOut pairs cur st prv) ∧
       (∀ x : ℤ, ((st ≤ x ∧ x ≤ prv) ∨ x ∈ pairs.map Prod.fst) →
         ∃ e ∈ closedOut pairs cur st prv, e.2.1 ≤ x ∧ x ≤ e.2.2)) := by
  induction pairs with
  | nil =>
    intro cur st prv hst _ _
    have hout : closedOut [] cur st prv = [(cur, st, prv)] := rfl
    rw [hout]
    refine ⟨by simp [chunkIds, chunkAux], ⟨le_refl st, hst, trivial⟩, ?_⟩
    intro x hx
    rcases hx with ⟨h1, h2⟩ | hx
    · exact ⟨(cur, st, prv), List.mem_singleton.mpr rfl, h1, h2⟩
    · simp at hx
  | cons hd tl ih =>
    intro cur st prv hst hch hnd
    obtain ⟨step, v⟩ := hd
    simp only [List.map_cons] at hch hnd
    have hprv_lt : prv < step := (List.chain'_cons.mp hch).1
    have hch2 : List.Chain' (· < ·) (step :: tl.map Prod.fst) := (List.chain'_cons.mp hch).2
    by_cases h : pyInt v = cur
    · rw [chunkIds_collapse cur (pyInt v) (tl.map (fun q => pyInt q.2)) h] at hnd
      have hred : closedOut ((step, v) :: tl) cur st prv = closedOut tl cur st step := by
        simp only [closedOut, List.map_cons, fstLoop,
          if_neg (show ¬ pyInt v ≠ cur by simpa using h), List.getLastD_cons]
      obtain ⟨ih1, ih2, ih3⟩ := ih cur st step (by omega) hch2 hnd
      rw [List.map_cons, chunkIds_collapse cur (pyInt v) (tl.map (fun q => pyInt q.2)) h]
      refine ⟨by rw [hred]; exact ih1, by rw [hred]; exact ih2, ?_⟩
      intro x hx
      rw [hred]
      apply ih3
      rcases hx with ⟨h1, h2⟩ | hx
      · exact Or.inl ⟨h1, by omega⟩
      · simp only [List.map_cons, List.mem_cons] at hx
        rcases hx with rfl | hx
        · exact Or.inl ⟨by omega, le_refl x⟩
        · exact Or.inr hx
    · rw [chunkIds_split cur (pyInt v) (tl.map (fun q => pyInt q.2)) h] at hnd
      have hnd2 := (List.nodup_cons.mp hnd).2
      have hcur_notin := (List.nodup_cons.mp hnd).1
      have hfst : fstLoop ((step, v) :: tl) [] cur st (some prv)
          = ((cur, st, prv) :: (fstLoop tl [] (pyInt v) step (some step)).1,
             (fstLoop tl [] (pyInt v) step (some step)).2) := by
        simp only [fstLoop, if_pos (show pyInt v ≠ cur from h), Option.getD_some]
        rw [show dictInsert ([] : List (ℤ × ℤ × ℤ)) cur (st, prv) = [(cur, st, prv)] from rfl]
        rw [fstLoop_acc tl [(cur, st, prv)] (pyInt v) step (some step) ?_ hnd2]
        · simp
        · intro k hk
          simp only [List.map_cons, List.map_nil, List.mem_singleton]
          intro hm
          exact hcur_notin (hm ▸ hk)
      have hne_cur : (fstLoop tl [] (pyInt v) step (some step)).2.1 ≠ cur := by
        intro hEq
        exact hcur_notin (hEq ▸ fstLoop_final_mem tl [] (pyInt v) step (some step))
      have hred : closedOut ((step, v) :: tl) cur st prv
          = (cur, st, prv) :: closedOut tl (pyInt v) step step := by
        simp only [closedOut, List.map_cons, List.getLastD_cons, hfst]
        rw [dictInsert_cons_ne _ _ _ _ hne_cur]
      obtain ⟨ih1, ih2, ih3⟩ := ih (pyInt v) step step (le_refl step) hch2 hnd2
      rw [List.map_cons, chunkIds_split cur (pyInt v) (tl.map (fun q => pyInt q.2)) h, hred]
      refine ⟨?_, ?_, ?_⟩
      · rw [List.map_cons, ih1]
      · exact ⟨le_refl st, hst, intervalChain_mono _ step (prv + 1) (by omega) ih2⟩
      · intro x hx
        rcases hx with ⟨h1, h2⟩ | hx
        · exact ⟨(cur, st, prv), List.mem_cons_self _ _, h1, h2⟩
        · simp only [List.map_cons, List.mem_cons] at hx
          rcases hx with rfl | hx
          · obtain ⟨e, he, hin⟩ := ih3 x (Or.inl ⟨le_refl x, le_refl x⟩)
            exact ⟨e, List.mem_cons_of_mem _ he, hin⟩
          · obtain ⟨e, he, hin⟩ := ih3 x (Or.inr hx)
            exact ⟨e, List.mem_cons_of_mem _ he, hin⟩

/-! ### Claims -/

/-- Claim C1 (code bug): when no run supplies a usable stage series the
analysis does fall back to the single-global-window results, and those results
are non-empty, yet the `is_curriculum_aware` flag that `main` passes to the
summary generator evaluates to `true` (every fallback entry is a six-key dict,
so `len(data) > 1` holds) — the output is rendered through the stage-aware
path instead of being labelled as final-performance-only analysis. -/
theorem curriculum_flag_code_bug :
    first_stage_ranges envC1 ["run1"] = none ∧
    analyze_curriculum_aware rngZero envC1 ["run1"] 50
      = analyze_final_performance_only rngZero envC1 ["run1"] 50 ∧
    analyze_final_performance_only rngZero envC1 ["run1"] 50 ≠ [] ∧
    is_curriculum_aware_flag (analyze_curriculum_aware rngZero envC1 ["run1"] 50) = true :=
  ⟨by decide, rfl, by decide, by decide⟩

/-- Claim C2, counterexample: in the curriculum-aware path a metric to which
no run contributes any data (here `Drone__Success`, absent from every run
directory) still receives an entry — the empty stage dict — under its display
name, instead of being omitted from the results mapping. -/
theorem metric_empty_entry_counterexample :
    (∀ d ∈ ["run1"], lookup_file envC2 d ("Drone__Success" ++ ".csv") = none) ∧
    dlookup "Success Rate" (analyze_curriculum_aware rngZero envC2 ["run1"] 50)
      = some (MetricResult.stages []) := by decide

/-- Claim C3, counterexample: stage 0 has exactly one contributing run
(`runB`, visible as `n_runs = 1`), but the recorded CI is `(0, 0)` because the
code re-reads `run_dirs[0] = runA`, which has no series for the metric; a
bootstrap over the contributing run's raw in-stage trailing-window values
`[1, 1]` (with the same source) yields `(1, 1) ≠ (0, 0)`. -/
theorem single_run_ci_counterexample :
    dlookup "Success Rate" (analyze_curriculum_aware rngZero envC3 ["runA", "runB"] 50)
      = some (MetricResult.stages
          [(0, ⟨mkRat 1 1, mkRat 0 1, mkRat 0 1, mkRat 0 1, "percentage", 1, 0, 1⟩)]) ∧
    in_stage_values [0, 1] [mkRat 1 1, mkRat 1 1] 0 1 = [mkRat 1 1, mkRat 1 1] ∧
    bootstrap_ci rngZero [mkRat 1 1, mkRat 1 1] 1000 (mkRat 19 20) = (mkRat 1 1, mkRat 1 1) ∧
    ((mkRat 0 1, mkRat 0 1) : ℚ × ℚ) ≠ (mkRat 1 1, mkRat 1 1) := by decide

/-- Claim C4, counterexample: on the signal with (non-decreasing, duplicated)
steps `[0, 0]` and values `[0, 1]` — two distinct consecutive stage ids, no
revisit — the observed step `0` lies inside two of the returned intervals, so
the intervals overlap and no exact-cover holds. -/
theorem segmenter_duplicate_step_counterexample :
    (chunkIds ([mkRat 0 1, mkRat 1 1].map pyInt)).Nodup ∧
    ((find_stage_transitions [0, 0] [mkRat 0 1, mkRat 1 1]).filter
      (fun e => decide (e.2.1 ≤ (0 : ℤ) ∧ (0 : ℤ) ≤ e.2.2))).length = 2 := by decide

/-- Claim C6: `bootstrap_ci` on fewer than 2 data points returns the sentinel
`(0.0, 0.0)` for every resampling source, every `n_bootstrap` and every
`confidence`, and (being a total function) raises no error. -/
theorem bootstrap_ci_short_data (rng : RNG) (data : List ℚ) (n_bootstrap : ℕ)
    (confidence : ℚ) (h : data.length < 2) :
    bootstrap_ci rng data n_bootstrap confidence = (mkRat 0 1, mkRat 0 1) := by
  unfold bootstrap_ci
  simp [h]

theorem bootstrap_ci_short_data_witness :
    ([mkRat 5 1] : List ℚ).length < 2 ∧
    bootstrap_ci rngZero [mkRat 5 1] 1000 (mkRat 19 20) = (mkRat 0 1, mkRat 0 1) :=
  ⟨by decide, bootstrap_ci_short_data rngZero [mkRat 5 1] 1000 (mkRat 19 20) (by decide)⟩

/-- Claim C7: the resampling source is an injectable argument of
`bootstrap_ci`, and the result is a function of the data and of the draws the
source yields at the consulted positions only — in particular two calls with
the same seeded source and the same data return identical CI bounds. -/
theorem bootstrap_ci_deterministic (rng1 rng2 : RNG) (data : List ℚ) (n_bootstrap : ℕ)
    (confidence : ℚ) (h : ∀ t < n_bootstrap, ∀ p < data.length, rng1 t p = rng2 t p) :
    bootstrap_ci rng1 data n_bootstrap confidence
      = bootstrap_ci rng2 data n_bootstrap confidence := by
  unfold bootstrap_ci
  by_cases h2 : data.length < 2
  · simp [h2]
  · have hm : ((List.range n_bootstrap).map (fun t =>
        np_mean ((List.range data.length).map (fun p =>
          data.getD (rng1 t p % data.length) (mkRat 0 1)))))
      = ((List.range n_bootstrap).map (fun t =>
        np_mean ((List.range data.length).map (fun p =>
          data.getD (rng2 t p % data.length) (mkRat 0 1))))) := by
      apply List.map_congr_left
      intro t ht
      congr 1
      apply List.map_congr_left
      intro p hp
      rw [h t (List.mem_range.mp ht) p (List.mem_range.mp hp)]
    simp only [h2, if_false, hm]

theorem bootstrap_ci_deterministic_witness :
    (∀ t < 2, ∀ p < ([mkRat 1 1, mkRat 2 1] : List ℚ).length, rngZero t p = rngAlt t p) ∧
    bootstrap_ci rngZero [mkRat 1 1, mkRat 2 1] 2 (mkRat 19 20)
      = bootstrap_ci rngAlt [mkRat 1 1, mkRat 2 1] 2 (mkRat 19 20) :=
  ⟨by decide,
   bootstrap_ci_deterministic rngZero rngAlt [mkRat 1 1, mkRat 2 1] 2 (mkRat 19 20) (by decide)⟩

/-- Claim C8, counterexample: on the signal `steps = [0]`,
`values = [0.6]` the only output key is `0`, but the round-to-nearest of the
only stage value is `1`: output ids are not rounds of input values. -/
theorem stage_id_round_counterexample :
    (find_stage_transitions [0] [mkRat 3 5]).map Prod.fst = [0] ∧
    roundNearest (mkRat 3 5) = 1 ∧
    ¬ ∃ v ∈ [mkRat 3 5], (0 : ℤ) = roundNearest v := by decide

/-- Claim C9: `format_value` renders percentages as `value*100` to one decimal
place followed by `%`, and floats integer-rounded when `|value| > 100` and to
two decimal places otherwise; in particular the three cited examples hold. -/
theorem format_value_spec :
    (∀ v : ℚ, format_value v "percentage" = format_fixed (qmul v (mkRat 100 1)) 1 ++ "%") ∧
    (∀ v : ℚ, mkRat 100 1 < qabs v → format_value v "float" = format_fixed v 0) ∧
    (∀ v : ℚ, ¬ mkRat 100 1 < qabs v → format_value v "float" = format_fixed v 2) ∧
    format_value (mkRat 873 1000) "percentage" = "87.3%" ∧
    format_value (mkRat 1532 10) "float" = "153" ∧
    format_value (mkRat 42 100) "float" = "0.42" := by
  refine ⟨fun v => rfl, fun v h => ?_, fun v h => ?_, by decide, by decide, by decide⟩
  · unfold format_value
    rw [if_neg (by decide), if_pos rfl, if_pos h]
  · unfold format_value
    rw [if_neg (by decide), if_pos rfl, if_neg h]

theorem format_value_spec_witness :
    (mkRat 100 1 < qabs (mkRat 1532 10) ∧ format_value (mkRat 1532 10) "float" = format_fixed (mkRat 1532 10) 0) ∧
    (¬ mkRat 100 1 < qabs (mkRat 42 100) ∧ format_value (mkRat 42 100) "float" = format_fixed (mkRat 42 100) 2) :=
  ⟨⟨by decide, format_value_spec.2.1 (mkRat 1532 10) (by decide)⟩,
   ⟨by decide, format_value_spec.2.2.1 (mkRat 42 100) (by decide)⟩⟩

/-- Claim C10: the `i = 0` fallback arm of the transition scan is dead code —
replacing the step it would close with (`step`) by a different value
(`step + 1`) leaves `find_stage_transitions` unchanged on every input, because
`current_stage` is initialised from the first value before the loop, so no
change can be detected at index 0 and every close reads the in-bounds previous
step. -/
theorem segmenter_fallback_dead (stage_steps : List ℤ) (stage_values : List ℚ) :
    find_stage_transitions stage_steps stage_values
      = find_stage_transitionsAlt stage_steps stage_values := by
  match stage_steps, stage_values with
  | [], _ => rfl
  | _ :: _, [] => rfl
  | s0 :: sr, v0 :: vr =>
    show (let res := fstLoop ((s0 :: sr).zip (v0 :: vr)) [] (pyInt v0) s0 none
          dictInsert res.1 res.2.1 (res.2.2, sr.getLastD s0))
       = (let res := fstLoopAlt ((s0 :: sr).zip (v0 :: vr)) [] (pyInt v0) s0 none
          dictInsert res.1 res.2.1 (res.2.2, sr.getLastD s0))
    have h1 : fstLoop ((s0 :: sr).zip (v0 :: vr)) [] (pyInt v0) s0 none
        = fstLoop (sr.zip vr) [] (pyInt v0) s0 (some s0) := by
      show fstLoop ((s0, v0) :: sr.zip vr) [] (pyInt v0) s0 none = _
      simp [fstLoop]
    have h2 : fstLoopAlt ((s0 :: sr).zip (v0 :: vr)) [] (pyInt v0) s0 none
        = fstLoopAlt (sr.zip vr) [] (pyInt v0) s0 (some s0) := by
      show fstLoopAlt ((s0, v0) :: sr.zip vr) [] (pyInt v0) s0 none = _
      simp [fstLoopAlt]
    simp only [h1, h2, fstLoop_eq_alt]

/-- Claim C5: for a stage interval holding strictly more than `stage_window`
in-interval samples (with a positive window, as configured — default 50), the
recorded per-stage statistics (`mean`, `std`, `min`, `max` via `mkStats`) are
computed over exactly the trailing `stage_window` in-interval samples — the
drop of all but the last `stage_window`, whose length is exactly
`stage_window` — and over all in-interval samples when there are
`stage_window` or fewer. -/
theorem stage_window_trailing (steps : List ℤ) (values : List ℚ)
    (stage_ranges : List (ℤ × ℤ × ℤ)) (stage_window : ℤ) (stage lo hi : ℤ)
    (hw : 1 ≤ stage_window)
    (hnd : (stage_ranges.map Prod.fst).Nodup)
    (hmem : (stage, lo, hi) ∈ stage_ranges)
    (hne : in_stage_values steps values lo hi ≠ []) :
    dlookup stage (get_stage_performance steps values stage_ranges stage_window)
      = some (mkStats
          (if ((in_stage_values steps values lo hi).length : ℤ) > stage_window
           then (in_stage_values steps values lo hi).drop
                  ((in_stage_values steps values lo hi).length - stage_window.toNat)
           else in_stage_values steps values lo hi)
          (in_stage_values steps values lo hi).length lo hi) ∧
    (((in_stage_values steps values lo hi).length : ℤ) > stage_window →
      ((in_stage_values steps values lo hi).drop
         ((in_stage_values steps values lo hi).length - stage_window.toNat)).length
        = stage_window.toNat) := by
  have hdrop : (if ((in_stage_values steps values lo hi).length : ℤ) > stage_window
      then pyTail (in_stage_values steps values lo hi) stage_window
      else in_stage_values steps values lo hi)
    = (if ((in_stage_values steps values lo hi).length : ℤ) > stage_window
      then (in_stage_values steps values lo hi).drop
            ((in_stage_values steps values lo hi).length - stage_window.toNat)
      else in_stage_values steps values lo hi) := by
    by_cases hgt : ((in_stage_values steps values lo hi).length : ℤ) > stage_window
    · rw [if_pos hgt, if_pos hgt,
        pyTail_trailing (in_stage_values steps values lo hi) stage_window hw hgt]
    · rw [if_neg hgt, if_neg hgt]
  have hlen : ((in_stage_values steps values lo hi).length : ℤ) > stage_window →
      ((in_stage_values steps values lo hi).drop
         ((in_stage_values steps values lo hi).length - stage_window.toNat)).length
        = stage_window.toNat := by
    intro hgt
    rw [List.length_drop]
    omega
  have hfv : (if ((in_stage_values steps values lo hi).length : ℤ) > stage_window
      then pyTail (in_stage_values steps values lo hi) stage_window
      else in_stage_values steps values lo hi) ≠ [] := by
    rw [hdrop]
    by_cases hgt : ((in_stage_values steps values lo hi).length : ℤ) > stage_window
    · rw [if_pos hgt]
      apply List.ne_nil_of_length_pos
      rw [hlen hgt]
      omega
    · rw [if_neg hgt]
      exact hne
  refine ⟨?_, hlen⟩
  rw [get_stage_performance,
    gsp_fold_found steps values stage_window stage lo hi hne hfv stage_ranges [] hnd hmem,
    hdrop]

theorem stage_window_trailing_witness :
    (1 : ℤ) ≤ 2 ∧
    (([((0 : ℤ), (0 : ℤ), (3 : ℤ))].map Prod.fst).Nodup) ∧
    ((0 : ℤ), (0 : ℤ), (3 : ℤ)) ∈ [((0 : ℤ), (0 : ℤ), (3 : ℤ))] ∧
    in_stage_values [0, 1, 2, 3] [mkRat 1 1, mkRat 2 1, mkRat 3 1, mkRat 10 1] 0 3 ≠ [] ∧
    (dlookup 0 (get_stage_performance [0, 1, 2, 3]
        [mkRat 1 1, mkRat 2 1, mkRat 3 1, mkRat 10 1] [(0, 0, 3)] 2)
      = some (mkStats
          (if ((in_stage_values [0, 1, 2, 3]
                  [mkRat 1 1, mkRat 2 1, mkRat 3 1, mkRat 10 1] 0 3).length : ℤ) > 2
           then (in_stage_values [0, 1, 2, 3]
                  [mkRat 1 1, mkRat 2 1, mkRat 3 1, mkRat 10 1] 0 3).drop
                  ((in_stage_values [0, 1, 2, 3]
                     [mkRat 1 1, mkRat 2 1, mkRat 3 1, mkRat 10 1] 0 3).length - (2 : ℤ).toNat)
           else in_stage_values [0, 1, 2, 3]
                  [mkRat 1 1, mkRat 2 1, mkRat 3 1, mkRat 10 1] 0 3)
          (in_stage_values [0, 1, 2, 3]
            [mkRat 1 1, mkRat 2 1, mkRat 3 1, mkRat 10 1] 0 3).length 0 3) ∧
     (((in_stage_values [0, 1, 2, 3]
          [mkRat 1 1, mkRat 2 1, mkRat 3 1, mkRat 10 1] 0 3).length : ℤ) > 2 →
       ((in_stage_values [0, 1, 2, 3]
           [mkRat 1 1, mkRat 2 1, mkRat 3 1, mkRat 10 1] 0 3).drop
          ((in_stage_values [0, 1, 2, 3]
             [mkRat 1 1, mkRat 2 1, mkRat 3 1, mkRat 10 1] 0 3).length - (2 : ℤ).toNat)).length
         = (2 : ℤ).toNat)) :=
  ⟨by decide, by decide, by decide, by decide,
   stage_window_trailing [0, 1, 2, 3] [mkRat 1 1, mkRat 2 1, mkRat 3 1, mkRat 10 1]
     [(0, 0, 3)] 2 0 0 3 (by decide) (by decide) (by decide) (by decide)⟩

/-- Claim C8, amended: every stage id in the segmenter's output is the
truncation toward zero (Python `int()`, not round-to-nearest) of some stage
value of the input signal, and on a one-sample signal the output is the
single interval keyed by the truncation of the first value (with which
`current_stage` is initialised). -/
theorem stage_id_truncation :
    (∀ (stage_steps : List ℤ) (stage_values : List ℚ) (k : ℤ),
        k ∈ (find_stage_transitions stage_steps stage_values).map Prod.fst →
        ∃ v ∈ stage_values, k = pyInt v) ∧
    (∀ (s : ℤ) (v : ℚ), find_stage_transitions [s] [v] = [(pyInt v, s, s)]) := by
  constructor
  · intro stage_steps stage_values k hk
    match stage_steps, stage_values with
    | [], _ => simp [find_stage_transitions] at hk
    | _ :: _, [] => simp [find_stage_transitions] at hk
    | s0 :: sr, v0 :: vr =>
      simp only [find_stage_transitions] at hk
      have hmem := mem_keys_dictInsert _ _ _ _ hk
      have hzip : ∀ k', k' ∈ ((s0 :: sr).zip (v0 :: vr)).map (fun q => pyInt q.2) →
          ∃ v ∈ v0 :: vr, k' = pyInt v := by
        intro k' hk'
        rcases List.mem_map.mp hk' with ⟨q, hq, hq2⟩
        exact ⟨q.2, (List.of_mem_zip hq).2, hq2.symm⟩
      obtain ⟨hkeys, hcur⟩ := fstLoop_keys ((s0 :: sr).zip (v0 :: vr)) [] (pyInt v0) s0 none
      rcases hmem with h | h
      · rcases hkeys k h with h1 | h1 | h1
        · simp at h1
        · exact ⟨v0, List.mem_cons_self v0 vr, h1⟩
        · exact hzip k h1
      · rcases hcur with h1 | h1
        · exact ⟨v0, List.mem_cons_self v0 vr, h.trans h1⟩
        · exact hzip k (by rw [h]; exact h1)
  · intro s v
    simp [find_stage_transitions, fstLoop, dictInsert]

theorem stage_id_truncation_witness :
    ((0 : ℤ) ∈ (find_stage_transitions [0] [mkRat 1 2]).map Prod.fst) ∧
    (∃ v ∈ [mkRat 1 2], (0 : ℤ) = pyInt v) :=
  ⟨by decide, stage_id_truncation.1 [0] [mkRat 1 2] 0 (by decide)⟩

/-- Claim C2, amended: a metric to which no run contributes any data is
omitted entirely from the results of `analyze_runs` and of the fallback
`analyze_final_performance_only`; in the curriculum-aware path, however, the
metric's display name still appears, bound to an empty stage mapping (line 161
creates the entry unconditionally) — an empty entry, not a zero-filled one. -/
theorem metric_without_data_handling (rng : RNG) (e : Env) (run_dirs : List String)
    (w : ℤ) (m : MetricInfo) (stage_ranges : List (ℤ × ℤ × ℤ))
    (hm : m ∈ metrics)
    (h0 : ∀ d ∈ run_dirs, file_exists e d (m.key ++ ".csv") = false) :
    dlookup m.name (analyze_runs rng e run_dirs w) = none ∧
    dlookup m.name (analyze_final_performance_only rng e run_dirs w) = none ∧
    (first_stage_ranges e run_dirs = some stage_ranges →
      dlookup m.name (analyze_curriculum_aware rng e run_dirs w)
        = some (MetricResult.stages [])) := by
  have hnd : (metrics.map (fun x => x.name)).Nodup := by decide
  refine ⟨?_, ?_, ?_⟩
  · rw [analyze_runs, dlookup_metric_filterMap metrics _ m hnd hm]
    unfold ar_entry
    rw [ar_fold_skip e m.key w run_dirs [] h0]
    simp
  · have hshape : analyze_final_performance_only rng e run_dirs w
        = metrics.filterMap (fun x =>
            ((afp_entry rng e run_dirs w x).map MetricResult.flat).map (fun b => (x.name, b))) := by
      unfold analyze_final_performance_only
      congr 1
      funext x
      rw [Option.map_map]
      rfl
    rw [hshape, dlookup_metric_filterMap metrics _ m hnd hm]
    unfold afp_entry
    rw [afp_fold_skip e m.key w run_dirs [] h0]
    simp
  · intro h1
    have hms : metric_stages rng e run_dirs m.key m.fmt stage_ranges w = [] := by
      simp only [metric_stages, stage_performances]
      rw [sp_fold_skip e m.key stage_ranges w run_dirs [] h0]
      rfl
    unfold analyze_curriculum_aware
    rw [h1]
    rw [dlookup_metric_map metrics
      (fun x => MetricResult.stages (metric_stages rng e run_dirs x.key x.fmt stage_ranges w))
      m hnd hm]
    rw [hms]

theorem metric_without_data_handling_witness :
    ((⟨"Drone__Success", "Success Rate", "percentage"⟩ : MetricInfo) ∈ metrics) ∧
    (∀ d ∈ ["run1"], file_exists envC2 d ("Drone__Success" ++ ".csv") = false) ∧
    (dlookup "Success Rate" (analyze_runs rngZero envC2 ["run1"] 100) = none ∧
     dlookup "Success Rate" (analyze_final_performance_only rngZero envC2 ["run1"] 100) = none ∧
     (first_stage_ranges envC2 ["run1"] = some [(0, 0, 0), (1, 1, 1)] →
       dlookup "Success Rate" (analyze_curriculum_aware rngZero envC2 ["run1"] 100)
         = some (MetricResult.stages []))) :=
  ⟨by decide, by decide,
   metric_without_data_handling rngZero envC2 ["run1"] 100
     ⟨"Drone__Success", "Success Rate", "percentage"⟩ [(0, 0, 0), (1, 1, 1)]
     (by decide) (by decide)⟩

/-- Claim C3, amended: for a stage to which exactly one run contributed a
converged mean, the combined result has `std = 0.0` and its CI is
`single_run_ci` — a bootstrap over raw in-stage trailing-window values
re-derived from the FIRST run directory (`run_dirs[0]`), which coincides with
the contributing run only when that run is first; when the first directory's
series is non-empty and covers the stage, the CI is the bootstrap over the
first directory's raw in-stage trailing-window values. -/
theorem single_run_ci_first_dir (rng : RNG) (e : Env) (run_dirs : List String)
    (key fmt : String) (stage_ranges : List (ℤ × ℤ × ℤ)) (stage_window : ℤ)
    (stage : ℤ) (v : ℚ)
    (hsp : dlookup stage (stage_performances e run_dirs key stage_ranges stage_window)
        = some [v]) :
    dlookup stage (metric_stages rng e run_dirs key fmt stage_ranges stage_window)
      = some (combine_stage rng e run_dirs key fmt stage_ranges stage_window stage [v]) ∧
    (combine_stage rng e run_dirs key fmt stage_ranges stage_window stage [v]).std_sq
      = mkRat 0 1 ∧
    ((combine_stage rng e run_dirs key fmt stage_ranges stage_window stage [v]).ci_lower,
     (combine_stage rng e run_dirs key fmt stage_ranges stage_window stage [v]).ci_upper)
      = single_run_ci rng e run_dirs key stage_ranges stage_window stage ∧
    (∀ (d : String) (rest : List String), run_dirs = d :: rest →
      (load_csv_data e d (key ++ ".csv")).1 ≠ [] →
      (load_csv_data e d (key ++ ".csv")).2 ≠ [] →
      stage ∈ (get_stage_performance (load_csv_data e d (key ++ ".csv")).1
          (load_csv_data e d (key ++ ".csv")).2 stage_ranges stage_window).map Prod.fst →
      single_run_ci rng e run_dirs key stage_ranges stage_window stage
        = bootstrap_ci rng
            (if ((in_stage_values (load_csv_data e d (key ++ ".csv")).1
                    (load_csv_data e d (key ++ ".csv")).2
                    ((dlookup stage stage_ranges).getD (0, 0)).1
                    ((dlookup stage stage_ranges).getD (0, 0)).2).length : ℤ) > stage_window
             then pyTail (in_stage_values (load_csv_data e d (key ++ ".csv")).1
                    (load_csv_data e d (key ++ ".csv")).2
                    ((dlookup stage stage_ranges).getD (0, 0)).1
                    ((dlookup stage stage_ranges).getD (0, 0)).2) stage_window
             else in_stage_values (load_csv_data e d (key ++ ".csv")).1
                    (load_csv_data e d (key ++ ".csv")).2
                    ((dlookup stage stage_ranges).getD (0, 0)).1
                    ((dlookup stage stage_ranges).getD (0, 0)).2)
            1000 (mkRat 19 20)) := by
  refine ⟨?_, by simp [combine_stage], by simp [combine_stage], ?_⟩
  · have hnd : ((stage_performances e run_dirs key stage_ranges stage_window).map Prod.fst).Nodup :=
      nodup_keys_stage_performances e run_dirs key stage_ranges stage_window
    have hmem : stage ∈ (stage_performances e run_dirs key stage_ranges stage_window).map Prod.fst :=
      dlookup_mem_keys hsp
    have hperm := isortBy_perm (fun a b : ℤ => decide (a ≤ b))
      ((stage_performances e run_dirs key stage_ranges stage_window).map Prod.fst)
    simp only [metric_stages]
    exact ms_fold_found rng e run_dirs key fmt stage_ranges stage_window
      (stage_performances e run_dirs key stage_ranges stage_window) stage [v] hsp
      (by simp) _ [] (hperm.nodup_iff.mpr hnd) (hperm.mem_iff.mpr hmem)
  · intro d rest hd h1 h2 h3
    subst hd
    simp only [single_run_ci]
    rw [if_pos ⟨h1, h2⟩, if_pos h3]

theorem single_run_ci_first_dir_witness :
    dlookup 0 (stage_performances envW3 ["run1"] "Drone__Success" [(0, 0, 1)] 50)
      = some [mkRat 1 1] ∧
    dlookup 0 (metric_stages rngZero envW3 ["run1"] "Drone__Success" "percentage" [(0, 0, 1)] 50)
      = some (combine_stage rngZero envW3 ["run1"] "Drone__Success" "percentage"
          [(0, 0, 1)] 50 0 [mkRat 1 1]) :=
  ⟨by decide,
   (single_run_ci_first_dir rngZero envW3 ["run1"] "Drone__Success" "percentage"
     [(0, 0, 1)] 50 0 (mkRat 1 1) (by decide)).1⟩

/-- Claim C4, amended: for every non-empty stage signal with STRICTLY
INCREASING steps whose truncated values form k distinct consecutive stage ids
with no revisits, `find_stage_transitions` returns exactly the k intervals
keyed by those ids in order, and every observed step lies in exactly one
interval (counting the intervals that contain it yields 1); with merely
non-decreasing steps a duplicated boundary step can fall in two intervals. -/
theorem segmenter_partition (stage_steps : List ℤ) (stage_values : List ℚ)
    (hne : stage_steps ≠ [])
    (hlen : stage_steps.length = stage_values.length)
    (hsort : List.Chain' (· < ·) stage_steps)
    (hnd : (chunkIds (stage_values.map pyInt)).Nodup) :
    (find_stage_transitions stage_steps stage_values).map Prod.fst
      = chunkIds (stage_values.map pyInt) ∧
    (∀ x ∈ stage_steps,
      (find_stage_transitions stage_steps stage_values).countP
        (fun e => decide (e.2.1 ≤ x ∧ x ≤ e.2.2)) = 1) := by
  match stage_steps, stage_values with
  | [], _ => exact absurd rfl hne
  | s0 :: sr, [] => simp at hlen
  | s0 :: sr, v0 :: vr =>
    have hlen' : sr.length = vr.length := by simpa using hlen
    have hmapfst : (sr.zip vr).map Prod.fst = sr := List.map_fst_zip sr vr (le_of_eq hlen')
    have hmapsnd : (sr.zip vr).map Prod.snd = vr := List.map_snd_zip sr vr (ge_of_eq hlen')
    have hids : (sr.zip vr).map (fun q => pyInt q.2) = vr.map pyInt := by
      rw [show (fun q : ℤ × ℚ => pyInt q.2) = pyInt ∘ Prod.snd from rfl, ← List.map_map, hmapsnd]
    have hfind : find_stage_transitions (s0 :: sr) (v0 :: vr)
        = closedOut (sr.zip vr) (pyInt v0) s0 s0 := by
      simp only [find_stage_transitions, closedOut, List.zip_cons_cons, fstLoop,
        if_neg (show ¬ pyInt v0 ≠ pyInt v0 by simp)]
      rw [hmapfst]
      rfl
    have hchz : List.Chain' (· < ·) (s0 :: (sr.zip vr).map Prod.fst) := by
      rw [hmapfst]
      exact hsort
    have hndz : (chunkIds (pyInt v0 :: (sr.zip vr).map (fun q => pyInt q.2))).Nodup := by
      rw [hids]
      exact hnd
    obtain ⟨h1, h2, h3⟩ :=
      fstLoop_segmentation (sr.zip vr) (pyInt v0) s0 s0 (le_refl s0) hchz hndz
    constructor
    · rw [hfind, h1, hids]
      rfl
    · intro x hx
      have hcover : ∃ e ∈ closedOut (sr.zip vr) (pyInt v0) s0 s0,
          e.2.1 ≤ x ∧ x ≤ e.2.2 := by
        apply h3
        rcases List.mem_cons.mp hx with rfl | hx
        · exact Or.inl ⟨le_refl x, le_refl x⟩
        · exact Or.inr (by rw [hmapfst]; exact hx)
      have hle := intervalChain_count (closedOut (sr.zip vr) (pyInt v0) s0 s0) s0 h2 x
      have hge : 0 < (closedOut (sr.zip vr) (pyInt v0) s0 s0).countP
          (fun e => decide (e.2.1 ≤ x ∧ x ≤ e.2.2)) := by
        rw [List.countP_pos_iff]
        obtain ⟨e, he, h4⟩ := hcover
        exact ⟨e, he, by simpa using h4⟩
      rw [hfind]
      omega

theorem segmenter_partition_witness :
    (([0, 1, 2, 3, 4, 5] : List ℤ) ≠ []) ∧
    (([0, 1, 2, 3, 4, 5] : List ℤ).length
      = ([mkRat 0 1, mkRat 0 1, mkRat 1 1, mkRat 1 1, mkRat 2 1, mkRat 2 1] : List ℚ).length) ∧
    List.Chain' (· < ·) ([0, 1, 2, 3, 4, 5] : List ℤ) ∧
    (chunkIds (([mkRat 0 1, mkRat 0 1, mkRat 1 1, mkRat 1 1, mkRat 2 1, mkRat 2 1] : List ℚ).map pyInt)).Nodup ∧
    ((find_stage_transitions [0, 1, 2, 3, 4, 5]
        [mkRat 0 1, mkRat 0 1, mkRat 1 1, mkRat 1 1, mkRat 2 1, mkRat 2 1]).map Prod.fst
      = chunkIds (([mkRat 0 1, mkRat 0 1, mkRat 1 1, mkRat 1 1, mkRat 2 1, mkRat 2 1] : List ℚ).map pyInt) ∧
     (∀ x ∈ ([0, 1, 2, 3, 4, 5] : List ℤ),
       (find_stage_transitions [0, 1, 2, 3, 4, 5]
          [mkRat 0 1, mkRat 0 1, mkRat 1 1, mkRat 1 1, mkRat 2 1, mkRat 2 1]).countP
         (fun e => decide (e.2.1 ≤ x ∧ x ≤ e.2.2)) = 1)) :=
  ⟨by decide, by decide, by norm_num [List.chain'_cons], by decide,
   segmenter_partition [0, 1, 2, 3, 4, 5]
     [mkRat 0 1, mkRat 0 1, mkRat 1 1, mkRat 1 1, mkRat 2 1, mkRat 2 1]
     (by decide) (by decide) (by norm_num [List.chain'_cons]) (by decide)⟩
